import Mathlib

/-!
Verification of the Bitbucket→GitHub issue migration script (`migrate.py`).

The Python source is shallowly embedded: pure text manipulation becomes
functions over `List Char` / `String`, the per-issue on-disk cache becomes an
association list of (filename, parsed JSON payload) in directory-listing
order, destination (GitHub) state becomes explicit records, and Python
exceptions become `Except PyErr`.
-/

/-- Python exception kinds relevant to the embedded code paths. -/
inductive PyErr where
  | ioError
  | keyError
  | valueError
  | nameError
  | typeError
deriving DecidableEq, Repr

/-- Python `str(x)` applied to a value that may be `None`
(`none` prints as `"None"`, as in Python string formatting). -/
def pyStrOpt : Option String → String
  | none => "None"
  | some s => s

/-- Decidable equality for `Except` results. -/
instance {ε α : Type} [DecidableEq ε] [DecidableEq α] : DecidableEq (Except ε α) :=
  fun a b =>
    match a, b with
    | .error e, .error f =>
      match decEq e f with
      | isTrue h => isTrue (congrArg Except.error h)
      | isFalse h => isFalse (fun hh => h (Except.error.inj hh))
    | .ok x, .ok y =>
      match decEq x y with
      | isTrue h => isTrue (congrArg Except.ok h)
      | isFalse h => isFalse (fun hh => h (Except.ok.inj hh))
    | .error _, .ok _ => isFalse (fun hh => Except.noConfusion hh)
    | .ok _, .error _ => isFalse (fun hh => Except.noConfusion hh)

/-! ### Python string primitives, over `List Char` -/

/-- Lexicographic (code-point) `<` on character lists: Python's string `<`. -/
def charListLt : List Char → List Char → Bool
  | [], [] => false
  | [], _ :: _ => true
  | _ :: _, [] => false
  | a :: as, b :: bs => a < b || (a = b && charListLt as bs)

/-- Python string `<` (lexicographic on code points). -/
def strLtB (a b : String) : Bool := charListLt a.toList b.toList

/-- Python string `<=`: the negation of the reversed strict comparison. -/
def strLeB (a b : String) : Bool := !(strLtB b a)

/-- Python `s.startswith(p)`. -/
def pyStartswith : List Char → List Char → Bool
  | [], _ => true
  | _ :: _, [] => false
  | p :: ps, c :: cs => p = c && pyStartswith ps cs

/-- Python `sub in s` (substring containment). -/
def pyIn (sub : List Char) : List Char → Bool
  | [] => pyStartswith sub []
  | c :: cs => pyStartswith sub (c :: cs) || pyIn sub cs

/-- Python `s.split(sep)` for a single-character separator (as in
`github_repo.split('/')`): empty parts are kept, and `"".split(sep)`
is `[""]`. -/
def pySplitChar (sep : Char) : List Char → List (List Char)
  | [] => [[]]
  | c :: rest =>
    if c = sep then [] :: pySplitChar sep rest
    else
      match pySplitChar sep rest with
      | [] => [[c]]
      | l :: ls => (c :: l) :: ls

/-- Python `s.partition(sep)`: split at the first occurrence of `sep`,
returning `(before, sep, after)`, or `(s, "", "")` when `sep` is absent.
(`sep` is nonempty at every call site, as in the source.) -/
def pyPartition (sep : List Char) : List Char → List Char × List Char × List Char
  | [] => ([], [], [])
  | c :: rest =>
    if pyStartswith sep (c :: rest) then
      ([], sep, List.drop sep.length (c :: rest))
    else
      match pyPartition sep rest with
      | (_, [], _) => (c :: rest, [], [])
      | (b, p, a) => (c :: b, p, a)

/-- Fuel-driven worker for `pyReplace`; the fuel is the input length, and each
step consumes at least one input character, so the `0` case is unreachable
from `pyReplace`. -/
def pyReplaceFuel (old new : List Char) : Nat → List Char → List Char
  | _, [] => []
  | 0, s => s
  | fuel + 1, c :: rest =>
    if pyStartswith old (c :: rest) && !old.isEmpty then
      new ++ pyReplaceFuel old new fuel (List.drop (old.length - 1) rest)
    else
      c :: pyReplaceFuel old new fuel rest

/-- Python `s.replace(old, new)`: replace every non-overlapping occurrence of
`old`, scanning left to right.  (`old` is nonempty at every call site.) -/
def pyReplace (old new s : List Char) : List Char :=
  pyReplaceFuel old new s.length s

/-- The line-boundary characters of Python `unicode.splitlines`:
`\n`, `\r`, `\v` (0x0b), `\f` (0x0c), the file/group/record separators
0x1c–0x1e, next-line 0x85, and the Unicode line/paragraph separators
U+2028/U+2029 (`\r\n` is additionally treated as a single boundary). -/
def isLineBreak (c : Char) : Bool :=
  c = '\n' || c = '\r' || c = '\x0b' || c = '\x0c' || c = '\x1c' ||
    c = '\x1d' || c = '\x1e' || c = '\x85' || c = '\u2028' || c = '\u2029'

/-- Python `unicode(body).splitlines()` worker: `acc` holds the current line's
characters in reverse; every `isLineBreak` character ends a line, with the
pair `"\r\n"` consumed as one boundary. -/
def splitlinesGo : List Char → List Char → List (List Char)
  | [], acc => if acc.isEmpty then [] else [acc.reverse]
  | '\r' :: '\n' :: rest, acc => acc.reverse :: splitlinesGo rest []
  | c :: rest, acc =>
    if isLineBreak c then acc.reverse :: splitlinesGo rest []
    else splitlinesGo rest (c :: acc)

/-- Python `s.splitlines()` (notably: a trailing line break produces no
trailing empty line). -/
def pySplitlines (s : List Char) : List (List Char) :=
  splitlinesGo s []

/-- Python `"\n".join(lines)`. -/
def joinLines : List (List Char) → List Char
  | [] => []
  | [l] => l
  | l :: ls => l ++ '\n' :: joinLines ls

/-! ### `clean_body` (migrate.py lines 180–201) -/

/-- The `"\x7b\x7b\x7b"` fence-opening marker. -/
def fenceOpen : List Char := "\x7b\x7b\x7b".toList

/-- The `"\x7d\x7d\x7d"` fence-closing marker. -/
def fenceClose : List Char := "\x7d\x7d\x7d".toList

/-- Four-space indent prepended to lines inside a fenced block. -/
def indent4 : List Char := "    ".toList

/-- One iteration of `clean_body`'s line loop: state is
`(in_block, lines collected so far)`. -/
def cleanBodyLine (st : Bool × List (List Char)) (line : List Char) :
    Bool × List (List Char) :=
  let (in_block, lines) := st
  if pyStartswith fenceOpen line || pyStartswith fenceClose line then
    -- two sequential `if` statements, as in the source
    let (in_block, lines) :=
      if pyIn fenceOpen line then
        let (_, _, after) := pyPartition fenceOpen line
        (true, lines ++ [indent4 ++ after])
      else (in_block, lines)
    if pyIn fenceClose line then
      let (before, _, _) := pyPartition fenceClose line
      (false, lines ++ [indent4 ++ before])
    else (in_block, lines)
  else
    if in_block then
      (in_block, lines ++ [indent4 ++ line])
    else
      (in_block,
        lines ++ [pyReplace fenceClose ['`'] (pyReplace fenceOpen ['`'] line)])

/-- `clean_body` from migrate.py: line-oriented fence conversion followed by
`%` → `&#37;` escaping. -/
def clean_body (body : List Char) : List Char :=
  let lines := ((pySplitlines body).foldl cleanBodyLine (false, [])).2
  pyReplace ['%'] "&#37;".toList (joinLines lines)

/-- `clean_body` on `String`s (the composition used by `format_body`). -/
def clean_bodyS (body : String) : String :=
  (clean_body body.toList).asString

/-! ### Data model: authors, issues, comments -/

/-- A Bitbucket `author_info` record (`first_name`, `last_name`, and the
optional `username` key). -/
structure AuthorInfo where
  first_name : String
  last_name : String
  username : Option String
deriving DecidableEq, Repr

/-- `format_user` (migrate.py lines 131–141).  The argument is `none` for a
falsy `author_info` (Python `None` or an empty dict).  The result is `none`
when the Python function falls off the end and implicitly returns `None`
(truthy record, not both names non-empty, no `username` key).  Python's
`x and y` on the two name strings is truthy iff both are non-empty. -/
def format_user : Option AuthorInfo → Option String
  | none => some "Anonymous"
  | some a =>
    if a.first_name ≠ "" ∧ a.last_name ≠ "" then
      some (a.first_name ++ " " ++ a.last_name)
    else
      match a.username with
      | some u => some ("[" ++ u ++ "](http://bitbucket.org/" ++ u ++ ")")
      | none => none

/-- A raw Bitbucket issue record as fetched by `get_issues`, together with the
`formatted` key that `iter_issue_from_bb` may add.  `formatted = none` models
the key being absent (as in every freshly fetched issue); `reported_by`'s
outer `Option` models key absence, the inner one a `None`/falsy value. -/
structure BBIssue where
  local_id : Nat
  title : String
  status : String
  content : Option String
  created_on : String
  utc_last_updated : String
  reported_by : Option (Option AuthorInfo)
  formatted : Option String
deriving DecidableEq, Repr

/-- A raw Bitbucket comment record as returned by the comments endpoint. -/
structure RawComment where
  author_info : Option AuthorInfo
  utc_created_on : String
  content : Option String
  comment_id : Nat
deriving DecidableEq, Repr

/-- The comment dict built by `get_comments`, cached on disk, and pushed to
GitHub (`user` may be Python `None`, since `format_user` may return `None`). -/
structure BBComment where
  user : Option String
  created_at : String
  body : String
  number : Nat
deriving DecidableEq, Repr

/-- `format_name` (migrate.py lines 144–148): `"Anonymous"` when the
`reported_by` key is absent, else whatever `format_user` returns. -/
def format_name (issue : BBIssue) : Option String :=
  match issue.reported_by with
  | some ai => format_user ai
  | none => some "Anonymous"

/-- `format_body` (migrate.py lines 151–165): cleaned content, a 40-dash
rule, and the provenance footer.  `issue.get('content')` may be `None`,
which Python's `unicode` renders as `"None"`. -/
def format_body (bb_user bb_repo : String) (issue : BBIssue) : String :=
  let content := clean_bodyS (pyStrOpt issue.content)
  content ++ "\n\n" ++ (List.replicate 40 '-').asString ++
    "\n- Bitbucket: https://bitbucket.org/" ++ bb_user ++ "/" ++ bb_repo ++
    "/issue/" ++ toString issue.local_id ++
    "\n- Originally reported by: " ++ pyStrOpt (format_name issue) ++
    "\n- Originally created at: " ++ issue.created_on ++ "\n"

/-! ### `get_comments` (migrate.py lines 241–266) -/

/-- The body of `get_comments`' accumulation loop, as a per-record map:
`comment['content'] or ''` is empty for a `None` or empty body, and such
status-change records are dropped. -/
def toPushedComment (c : RawComment) : Option BBComment :=
  let body := c.content.getD ""
  if body ≠ "" then
    some { user := format_user c.author_info,
           created_at := c.utc_created_on,
           body := body,
           number := c.comment_id }
  else none

/-- `get_comments`: sort the response ascending by `utc_created_on` (Python's
stable `sorted` on the string key), then keep only records with a non-empty
body, shaped as the comment dicts of `toPushedComment`. -/
def get_comments (response : List RawComment) : List BBComment :=
  let ordered :=
    List.insertionSort
      (fun a b => strLeB a.utc_created_on b.utc_created_on = true) response
  ordered.foldl
    (fun comments c =>
      match toPushedComment c with
      | some g => comments ++ [g]
      | none => comments)
    []

/-! ### `add_comments_to_issue` (migrate.py lines 280–304) -/

/-- The rendered body posted for a Bitbucket comment:
`'_From {user} on {created_at}_\n\n{body}'`. -/
def comment_body (c : BBComment) : String :=
  "_From " ++ pyStrOpt c.user ++ " on " ++ c.created_at ++ "_\n\n" ++ c.body

/-- `add_comments_to_issue`, non-dry-run: the destination issue's comments
are the list `dest` of existing bodies (in creation order); the snapshot
`existing_comments` is taken once, then each Bitbucket comment whose rendered
body is not in the snapshot is posted (appended).  Returns the destination's
final comment-body list. -/
def add_comments_to_issue (dest : List String) (bb_comments : List BBComment) :
    List String :=
  let existing_comments := dest
  bb_comments.foldl
    (fun d comment =>
      let body := comment_body comment
      if body ∈ existing_comments then d else d ++ [body])
    dest

/-! ### `time.strptime` with format `'%Y-%m-%d %H:%M:%S+00:00'` -/

/-- The first six `struct_time` fields; Python compares `struct_time`
tuples lexicographically, and for two values produced by `strptime` on this
format the remaining fields (week day, year day, isdst) are determined by
these six. -/
structure TmStruct where
  tm_year : Nat
  tm_mon : Nat
  tm_mday : Nat
  tm_hour : Nat
  tm_min : Nat
  tm_sec : Nat
deriving DecidableEq, Repr

/-- Lexicographic `<` on the `struct_time` fields. -/
def tmLt (a b : TmStruct) : Bool :=
  if a.tm_year ≠ b.tm_year then a.tm_year < b.tm_year
  else if a.tm_mon ≠ b.tm_mon then a.tm_mon < b.tm_mon
  else if a.tm_mday ≠ b.tm_mday then a.tm_mday < b.tm_mday
  else if a.tm_hour ≠ b.tm_hour then a.tm_hour < b.tm_hour
  else if a.tm_min ≠ b.tm_min then a.tm_min < b.tm_min
  else decide (a.tm_sec < b.tm_sec)

/-- Take at most `max` leading decimal digits (as `strptime`'s bounded
numeric directives do), returning them with the rest of the input. -/
def takeDigitsUpTo : Nat → List Char → List Char × List Char
  | 0, s => ([], s)
  | _ + 1, [] => ([], [])
  | max + 1, c :: rest =>
    if c.isDigit then
      let (ds, r) := takeDigitsUpTo max rest
      (c :: ds, r)
    else ([], c :: rest)

/-- Decimal value of a digit run. -/
def digitsToNat (ds : List Char) : Nat :=
  ds.foldl (fun n c => n * 10 + (c.toNat - 48)) 0

/-- Parse a numeric directive of at most `max` digits; `none` when no digit
is present (`strptime` raises `ValueError` there). -/
def parseNum (max : Nat) (s : List Char) : Option (Nat × List Char) :=
  let (ds, r) := takeDigitsUpTo max s
  if ds = [] then none else some (digitsToNat ds, r)

/-- Parse the `%Y` directive: exactly four digits (Python's `strptime`
pattern for `%Y` is `\d\d\d\d`). -/
def parseYear4 (s : List Char) : Option (Nat × List Char) :=
  let (ds, r) := takeDigitsUpTo 4 s
  if ds.length = 4 then some (digitsToNat ds, r) else none

/-- Expect the literal characters `lit` next. -/
def expectLit : List Char → List Char → Option (List Char)
  | [], s => some s
  | _ :: _, [] => none
  | c :: ps, d :: s => if c = d then expectLit ps s else none

/-- `time.strptime(s, '%Y-%m-%d %H:%M:%S+00:00')`: fixed literal separators,
a four-digit year, bounded greedy digit runs for the other fields, and
`strptime`'s per-field range checks; `none` models the `ValueError` raised
on any mismatch. -/
def strptimeFixed (s : List Char) : Option TmStruct := do
  let (y, r) ← parseYear4 s
  let r ← expectLit ['-'] r
  let (mo, r) ← parseNum 2 r
  let r ← expectLit ['-'] r
  let (d, r) ← parseNum 2 r
  let r ← expectLit [' '] r
  let (h, r) ← parseNum 2 r
  let r ← expectLit [':'] r
  let (mi, r) ← parseNum 2 r
  let r ← expectLit [':'] r
  let (se, r) ← parseNum 2 r
  let r ← expectLit "+00:00".toList r
  if r = [] ∧ 1 ≤ mo ∧ mo ≤ 12 ∧ 1 ≤ d ∧ d ≤ 31 ∧ h ≤ 23 ∧ mi ≤ 59 ∧ se ≤ 61 then
    some ⟨y, mo, d, h, mi, se⟩
  else none

/-! ### The per-issue snapshot cache (`IssueCache`, migrate.py lines 371–437)

A per-issue cache directory is a list of (filename, parsed JSON payload)
pairs in directory-listing order; `os.listdir` returns names in an order the
filesystem chooses, modelled here as creation order.  Only the enabled-cache
paths are embedded (with `base_dir = None`, `load` returns Python `None` and
`changed` then raises `TypeError`; no claim concerns that mode). -/

/-- A parsed cache file: `issue.json` holds an issue dict, `comment-<n>.json`
a comment dict. -/
inductive CacheFile where
  | issueFile (i : BBIssue)
  | commentFile (c : BBComment)
deriving DecidableEq, Repr

/-- A per-issue cache directory, in listing order. -/
abbrev CacheDir := List (String × CacheFile)

namespace IssueCache

/-- `COMMENT_FILE_PREFIX = 'comment-'` (name abbreviated). -/
def COMMENT_FILE_PREF : String := "comment-"

/-- `ISSUE_FILE_NAME = 'issue.json'`. -/
def ISSUE_FILE_NAME : String := "issue.json"

/-- `save(name, data)`: total overwrite of the named file (creating it if
absent; a fresh file lists after the existing ones). -/
def save (dir : CacheDir) (name : String) (data : CacheFile) : CacheDir :=
  if dir.any (fun e => e.1 = name) then
    dir.map (fun e => if e.1 = name then (name, data) else e)
  else
    dir ++ [(name, data)]

/-- `load(name)`: `none` models the `IOError` that Python's `open` raises
when the file does not exist. -/
def load (dir : CacheDir) (name : String) : Option CacheFile :=
  (dir.find? (fun e => e.1 = name)).map (fun e => e.2)

/-- `delete_comments`: removes every file whose name starts with the
hard-coded string `'comments-'` — note the trailing `s`, which is not the
`'comment-'` prefix that `save` uses for comment files. -/
def delete_comments (dir : CacheDir) : CacheDir :=
  dir.filter (fun e => !(pyStartswith "comments-".toList e.1.toList))

/-- `changed(issue)`: compares the cached issue's `utc_last_updated` with the
incoming one under `strptimeFixed`.  When `issue.json` is missing the
`open` inside `load` raises `IOError`; when a timestamp does not match the
format `strptime` raises `ValueError`; a non-dict payload under
`issue.json` cannot arise from the cache's own writes. -/
def changed (dir : CacheDir) (issue : BBIssue) : Except PyErr Bool :=
  match load dir ISSUE_FILE_NAME with
  | none => .error .ioError
  | some (.commentFile _) => .error .keyError
  | some (.issueFile ci) =>
    match strptimeFixed ci.utc_last_updated.toList,
          strptimeFixed issue.utc_last_updated.toList with
    | some t1, some t2 => .ok (tmLt t1 t2)
    | _, _ => .error .valueError

/-- The `comments` property getter: load every file whose name starts with
`'comment-'`, in listing order — no sorting is applied.  (The `issueFile`
branch is unreachable for directories produced by the cache's own setters,
whose comment files always hold comment dicts.) -/
def comments (dir : CacheDir) : List BBComment :=
  (dir.filter (fun e => pyStartswith COMMENT_FILE_PREF.toList e.1.toList)).filterMap
    (fun e => match e.2 with
      | .commentFile c => some c
      | .issueFile _ => none)

/-- The `comments` property setter: `delete_comments`, then save each comment
under `'comment-<number>.json'`. -/
def commentsSet (dir : CacheDir) (cs : List BBComment) : CacheDir :=
  cs.foldl
    (fun d c =>
      save d (COMMENT_FILE_PREF ++ toString c.number ++ ".json") (.commentFile c))
    (delete_comments dir)

/-- The `issue` property setter: save the issue dict under `issue.json`. -/
def issueSet (dir : CacheDir) (i : BBIssue) : CacheDir :=
  save dir ISSUE_FILE_NAME (.issueFile i)

end IssueCache

/-! ### GitHub push (`push_issue`, migrate.py lines 308–336) -/

/-- The destination issue as created/edited by `push_issue`. -/
structure GhIssue where
  title : String
  body : String
  labels : List String
  state : String
deriving DecidableEq, Repr

/-- `github_label(github_repo, name)`: `get_label(name)` returns the label
named `name`, and on `GithubException` `create_label(name, color)` creates
it; either way, the memoized result is a label whose name is `name`. -/
def github_label (name : String) : String := name

/-- `push_issue`, with the destination issue handle made explicit.  In
non-dry-run mode the labels are computed first, then `create_issue` reads
`issue['formatted']` (a `KeyError` when the key is absent), and a
`'resolved'` issue is closed immediately after creation; newly created
GitHub issues start in state `"open"`.  With `verbose`, `issue['formatted']`
is also read for printing. -/
def push_issue (issue : BBIssue) (dry_run verbose : Bool) :
    Except PyErr (Option GhIssue) := do
  let github_issue ←
    if dry_run then pure none
    else
      match issue.formatted with
      | none => Except.error PyErr.keyError
      | some body =>
        let github_labels :=
          if issue.status = "resolved" then [] else [github_label issue.status]
        let gi : GhIssue :=
          { title := issue.title, body := body,
            labels := github_labels, state := "open" }
        let gi := if issue.status = "resolved" then { gi with state := "closed" } else gi
        pure (some gi)
  if verbose then
    match issue.formatted with
    | none => Except.error PyErr.keyError
    | some _ => pure github_issue
  else pure github_issue

/-! ### The live pipeline step (`iter_issue_from_bb`, migrate.py lines 449–466) -/

/-- The Migration Unit yielded per issue: `{'id': ..., 'issue': ..., 'comments': ...}`. -/
structure MigUnit where
  id : Nat
  issue : BBIssue
  comments : List BBComment
deriving DecidableEq, Repr

/-- One iteration of `iter_issue_from_bb`'s loop body for a fetched issue:
consult `changed`; if changed, format the body into `issue['formatted']`,
fetch comments fresh (`response` is the comments-endpoint payload) and cache
them; else reuse the cached comment files.  Returns the yielded unit and the
cache directory afterwards. -/
def iter_issue_from_bb_step (bb_user bb_repo : String) (dir : CacheDir)
    (issue : BBIssue) (response : List RawComment) :
    Except PyErr (MigUnit × CacheDir) :=
  match IssueCache.changed dir issue with
  | .error e => .error e
  | .ok true =>
    let issue' := { issue with formatted := some (format_body bb_user bb_repo issue) }
    let comments := get_comments response
    let dir' := IssueCache.commentsSet dir comments
    .ok ({ id := issue.local_id, issue := issue', comments := comments }, dir')
  | .ok false =>
    .ok ({ id := issue.local_id, issue := issue,
           comments := IssueCache.comments dir }, dir)

/-! ### `prepare_github` (migrate.py lines 339–368) -/

/-- The owner object against which `get_repo` is finally called. -/
inductive GhOwner where
  | authedUser
  | user (name : String)
  | org (name : String)
deriving DecidableEq, Repr

/-- Which user/organization lookups succeed on the GitHub side. -/
structure GhEnv where
  userExists : String → Bool
  orgExists : String → Bool

/-- The repository-resolution tail of `prepare_github` (after the credential
loop): the Python local `gh_repo` is modelled as an `Option` that is `none`
until assigned — and only the `'/' in github_repo` branch assigns it, via
tuple-unpacking of `github_repo.split('/')` (a `ValueError` unless exactly
two parts).  The final `github_owner.get_repo(gh_repo)` reads `gh_repo`: an
unassigned local raises a name error there. -/
def prepare_github_resolve (env : GhEnv) (github_repo : String) :
    Except PyErr (GhOwner × String) :=
  let branch : Except PyErr (GhOwner × Option String) :=
    if pyIn "/".toList github_repo.toList then
      match pySplitChar '/' github_repo.toList with
      | [gh_user, gh_repo] =>
        let owner :=
          if env.userExists gh_user.asString then GhOwner.user gh_user.asString
          else if env.orgExists gh_user.asString then GhOwner.org gh_user.asString
          else GhOwner.authedUser
        .ok (owner, some gh_repo.asString)
      | _ => .error .valueError
    else .ok (.authedUser, none)
  match branch with
  | .error e => .error e
  | .ok (owner, some gh_repo) => .ok (owner, gh_repo)
  | .ok (_, none) => .error .nameError

/-! ### Concrete fixtures used by witnesses and counterexamples -/

/-- A last-updated timestamp `T1`. -/
def tsT1 : String := "2012-01-01 10:00:00+00:00"

/-- A later last-updated timestamp `T2`. -/
def tsT2 : String := "2012-01-02 10:00:00+00:00"

/-- An issue whose `utc_last_updated` is `T1` (as fetched: no `formatted`). -/
def issueT1 : BBIssue :=
  { local_id := 1, title := "t", status := "open", content := some "body",
    created_on := "2012-01-01 09:00:00", utc_last_updated := tsT1,
    reported_by := none, formatted := none }

/-- The same issue with `utc_last_updated = T2`. -/
def issueT2 : BBIssue := { issueT1 with utc_last_updated := tsT2 }

/-- A cache directory whose `issue.json` snapshot carries timestamp `T1`. -/
def cacheDirT1 : CacheDir := [("issue.json", .issueFile issueT1)]

/-- A previously cached comment, number 1. -/
def commentOld : BBComment :=
  ⟨some "u", "2012-01-01 10:00:00+00:00", "old", 1⟩

/-- A fresh comment, number 2. -/
def commentNew : BBComment :=
  ⟨some "u", "2012-01-03 10:00:00+00:00", "new", 2⟩

/-- The later-created of two comments entering the cache first. -/
def commentLate : BBComment :=
  ⟨some "u", "2012-01-02 10:00:00+00:00", "b2", 1⟩

/-- The earlier-created of two comments entering the cache second. -/
def commentEarly : BBComment :=
  ⟨some "u", "2012-01-01 10:00:00+00:00", "b1", 2⟩

/-- A populated cache directory for an issue last updated at `T1`:
issue snapshot plus one cached comment file. -/
def cacheDirUnchanged : CacheDir :=
  [("issue.json", .issueFile issueT1), ("comment-1.json", .commentFile commentOld)]

/-- A resolved issue carrying a formatted body. -/
def issueResolved : BBIssue :=
  { issueT1 with status := "resolved", formatted := some "B" }

/-- An open issue carrying a formatted body. -/
def issueOpenSt : BBIssue := { issueT1 with formatted := some "B" }

/-- An `author_info` with a first name only and no `username` key. -/
def authorHalfName : AuthorInfo := ⟨"A", "", none⟩

/-- A GitHub side on which no user or organization lookup succeeds. -/
def envNoLookups : GhEnv := ⟨fun _ => false, fun _ => false⟩

/-- First of two distinct comments sharing one rendered body. -/
def commentDupA : BBComment :=
  ⟨some "u", "2012-01-01 10:00:00+00:00", "hi", 1⟩

/-- Second of two distinct comments sharing one rendered body
(same author, timestamp and text; different comment number). -/
def commentDupB : BBComment :=
  ⟨some "u", "2012-01-01 10:00:00+00:00", "hi", 2⟩

/-- A raw comment created later, listed first in the API response. -/
def rawLater : RawComment :=
  ⟨some ⟨"A", "B", none⟩, "2012-01-02 10:00:00+00:00", some "x", 5⟩

/-- A raw comment created earlier, listed last in the API response. -/
def rawEarlier : RawComment :=
  ⟨none, "2012-01-01 10:00:00+00:00", some "y", 6⟩

/-! ## Helper lemmas -/

theorem charListLt_irrefl : ∀ a : List Char, charListLt a a = false
  | [] => rfl
  | c :: cs => by
    simp [charListLt, charListLt_irrefl cs, lt_irrefl]

theorem charListLt_trans : ∀ {a b c : List Char},
    charListLt a b = true → charListLt b c = true → charListLt a c = true
  | [], _ :: _, _ :: _, _, _ => rfl
  | a :: as, b :: bs, c :: cs, hab, hbc => by
    simp only [charListLt, Bool.or_eq_true, Bool.and_eq_true, decide_eq_true_eq] at *
    rcases hab with hab | ⟨rfl, hab⟩ <;> rcases hbc with hbc | ⟨rfl, hbc⟩
    · exact Or.inl (lt_trans hab hbc)
    · exact Or.inl hab
    · exact Or.inl hbc
    · exact Or.inr ⟨rfl, charListLt_trans hab hbc⟩

theorem charListLt_connex : ∀ {a b : List Char},
    charListLt a b = false → charListLt b a = false → a = b
  | [], [], _, _ => rfl
  | [], _ :: _, h, _ => by simp [charListLt] at h
  | _ :: _, [], _, h => by simp [charListLt] at h
  | a :: as, b :: bs, hab, hba => by
    simp only [charListLt, Bool.or_eq_false_iff, Bool.and_eq_false_iff,
      decide_eq_false_iff_not] at hab hba
    obtain ⟨hab1, hab2⟩ := hab
    obtain ⟨hba1, hba2⟩ := hba
    have hcc : a = b := le_antisymm (not_lt.1 hba1) (not_lt.1 hab1)
    subst hcc
    rcases hab2 with h | hab2
    · exact absurd rfl h
    · rcases hba2 with h | hba2
      · exact absurd rfl h
      · exact congrArg (a :: ·) (charListLt_connex hab2 hba2)

theorem charListLt_asymm {a b : List Char} (h : charListLt a b = true) :
    charListLt b a = false := by
  by_contra hba
  have hba' : charListLt b a = true := by
    cases hcb : charListLt b a
    · exact absurd hcb hba
    · rfl
  have := charListLt_trans h hba'
  rw [charListLt_irrefl] at this
  exact Bool.false_ne_true this

theorem strLeB_iff {a b : String} : strLeB a b = true ↔ strLtB b a = false := by
  unfold strLeB
  cases strLtB b a <;> simp

theorem strLtB_of_strLeB_of_ne {a b : String} (h : strLeB a b = true) (hne : a ≠ b) :
    strLtB a b = true := by
  cases hlt : strLtB a b
  · exfalso
    apply hne
    apply String.ext
    have : a.toList = b.toList := charListLt_connex hlt (strLeB_iff.1 h)
    simpa [String.toList] using this
  · rfl

theorem pyStartswith_append {p s : List Char} (t : List Char)
    (h : pyStartswith p s = true) : pyStartswith p (s ++ t) = true := by
  induction p generalizing s with
  | nil => rfl
  | cons a ps ih =>
    cases s with
    | nil => simp [pyStartswith] at h
    | cons c cs =>
      simp only [pyStartswith, Bool.and_eq_true, decide_eq_true_eq] at h ⊢
      exact ⟨h.1, ih h.2⟩

theorem pyIn_of_startswith {p s : List Char} (h : pyStartswith p s = true) :
    pyIn p s = true := by
  cases s with
  | nil => exact h
  | cons c cs => simp [pyIn, h]

theorem pyIn_append_left {p xs : List Char} (ys : List Char)
    (h : pyIn p xs = true) : pyIn p (xs ++ ys) = true := by
  induction xs with
  | nil =>
    have hp : pyStartswith p [] = true := h
    cases p with
    | nil => exact pyIn_of_startswith rfl
    | cons a ps => simp [pyStartswith] at hp
  | cons c cs ih =>
    simp only [pyIn, Bool.or_eq_true] at h
    rcases h with h | h
    · have := pyStartswith_append (s := c :: cs) ys h
      simpa [pyIn] using Or.inl this
    · simp [pyIn, ih h]

theorem pyIn_append_right {p ys : List Char} (xs : List Char)
    (h : pyIn p ys = true) : pyIn p (xs ++ ys) = true := by
  induction xs with
  | nil => simpa using h
  | cons c cs ih => simp [pyIn, ih]

theorem pyReplaceFuel_no_occ {old s : List Char} (new : List Char)
    (h : pyIn old s = false) : ∀ fuel, pyReplaceFuel old new fuel s = s := by
  induction s with
  | nil => intro fuel; cases fuel <;> rfl
  | cons c cs ih =>
    intro fuel
    simp only [pyIn, Bool.or_eq_false_iff] at h
    cases fuel with
    | zero => rfl
    | succ f =>
      simp only [pyReplaceFuel, h.1, Bool.false_and, Bool.false_eq_true, if_false,
        List.cons.injEq, true_and]
      exact ih h.2 f

theorem pyReplace_no_occ {old s : List Char} (new : List Char)
    (h : pyIn old s = false) : pyReplace old new s = s :=
  pyReplaceFuel_no_occ new h s.length

set_option maxHeartbeats 1000000 in
theorem splitlinesGo_char {c : Char} (hbr : isLineBreak c = false)
    (rest acc : List Char) :
    splitlinesGo (c :: rest) acc = splitlinesGo rest (c :: acc) := by
  have hcr : c ≠ '\r' := by
    intro h
    rw [h] at hbr
    simp [isLineBreak] at hbr
  rw [splitlinesGo.eq_def]
  split
  · simp_all
  · simp_all
  · rename_i heq
    rw [List.cons.injEq] at heq
    obtain ⟨hc1, hc2⟩ := heq
    subst hc1
    subst hc2
    rw [if_neg (by simp [hbr])]

theorem splitlinesGo_newline (rest acc : List Char) :
    splitlinesGo ('\n' :: rest) acc = acc.reverse :: splitlinesGo rest [] := rfl

theorem splitlinesGo_nil (acc : List Char) :
    splitlinesGo [] acc = if acc.isEmpty then [] else [acc.reverse] := rfl

theorem splitlinesGo_ne_nil {cs : List Char}
    (hb : ∀ c ∈ cs, isLineBreak c = true → c = '\n') :
    ∀ acc, cs ≠ [] ∨ acc ≠ [] → splitlinesGo cs acc ≠ [] := by
  induction cs with
  | nil =>
    intro acc h
    rcases h with h | h
    · exact absurd rfl h
    · simp [splitlinesGo_nil, h]
  | cons c rest ih =>
    intro acc _
    have hbRest : ∀ c2 ∈ rest, isLineBreak c2 = true → c2 = '\n' :=
      fun c2 hc2 => hb c2 (List.mem_cons_of_mem _ hc2)
    cases hbrk : isLineBreak c with
    | true =>
      have hcn : c = '\n' := hb c (List.mem_cons_self _ _) hbrk
      subst hcn
      rw [splitlinesGo_newline]
      simp
    | false =>
      rw [splitlinesGo_char hbrk]
      exact ih hbRest (c :: acc) (Or.inr (by simp))

theorem joinLines_cons {ls : List (List Char)} (l : List Char) (h : ls ≠ []) :
    joinLines (l :: ls) = l ++ '\n' :: joinLines ls := by
  cases ls with
  | nil => exact absurd rfl h
  | cons l2 ls2 => rfl

theorem joinLines_splitlinesGo {cs : List Char}
    (hb : ∀ c ∈ cs, isLineBreak c = true → c = '\n')
    (hn : cs.getLast? ≠ some '\n') :
    ∀ acc, joinLines (splitlinesGo cs acc) = acc.reverse ++ cs := by
  induction cs with
  | nil =>
    intro acc
    rw [splitlinesGo_nil]
    by_cases h : acc.isEmpty
    · rw [if_pos h]
      simp [joinLines, List.isEmpty_iff.1 h]
    · rw [if_neg h]
      simp [joinLines]
  | cons c rest ih =>
    intro acc
    have hbRest : ∀ c2 ∈ rest, isLineBreak c2 = true → c2 = '\n' :=
      fun c2 hc2 => hb c2 (List.mem_cons_of_mem _ hc2)
    cases hbrk : isLineBreak c with
    | true =>
      have hcn : c = '\n' := hb c (List.mem_cons_self _ _) hbrk
      subst hcn
      cases rest with
      | nil => simp at hn
      | cons r rest2 =>
        have hn2 : (r :: rest2).getLast? ≠ some '\n' := by
          rwa [List.getLast?_cons_cons] at hn
        rw [splitlinesGo_newline,
          joinLines_cons _ (splitlinesGo_ne_nil hbRest [] (Or.inl (by simp))),
          ih hbRest hn2 []]
        simp
    | false =>
      have hn2 : rest.getLast? ≠ some '\n' := by
        cases rest with
        | nil => simp
        | cons r rest2 => rwa [List.getLast?_cons_cons] at hn
      rw [splitlinesGo_char hbrk, ih hbRest hn2 (c :: acc)]
      simp

theorem splitlinesGo_pyIn {p cs : List Char}
    (hb : ∀ c ∈ cs, isLineBreak c = true → c = '\n') :
    ∀ acc, pyIn p (acc.reverse ++ cs) = false →
      ∀ l ∈ splitlinesGo cs acc, pyIn p l = false := by
  induction cs with
  | nil =>
    intro acc h l hl
    rw [splitlinesGo_nil] at hl
    by_cases ha : acc.isEmpty
    · rw [if_pos ha] at hl
      simp at hl
    · rw [if_neg ha] at hl
      simp only [List.mem_singleton] at hl
      subst hl
      simpa using h
  | cons c rest ih =>
    intro acc h l hl
    have hbRest : ∀ c2 ∈ rest, isLineBreak c2 = true → c2 = '\n' :=
      fun c2 hc2 => hb c2 (List.mem_cons_of_mem _ hc2)
    cases hbrk : isLineBreak c with
    | true =>
      have hcn : c = '\n' := hb c (List.mem_cons_self _ _) hbrk
      subst hcn
      rw [splitlinesGo_newline] at hl
      rcases List.mem_cons.1 hl with hl | hl
      · subst hl
        cases hacc : pyIn p acc.reverse with
        | false => rfl
        | true =>
          have h2 := pyIn_append_left ('\n' :: rest) hacc
          rw [h] at h2
          exact absurd h2 Bool.false_ne_true
      · refine ih hbRest [] ?_ l hl
        simp only [List.reverse_nil, List.nil_append]
        cases hrest : pyIn p rest with
        | false => rfl
        | true =>
          have h2 := pyIn_append_right (acc.reverse ++ ['\n']) hrest
          rw [List.append_assoc] at h2
          simp only [List.singleton_append] at h2
          rw [h] at h2
          exact absurd h2 Bool.false_ne_true
    | false =>
      rw [splitlinesGo_char hbrk] at hl
      refine ih hbRest (c :: acc) ?_ l hl
      have : (c :: acc).reverse ++ rest = acc.reverse ++ c :: rest := by simp
      rw [this, h]

theorem cleanBodyLine_plain {l : List Char} (ls : List (List Char))
    (h1 : pyIn fenceOpen l = false) (h2 : pyIn fenceClose l = false) :
    cleanBodyLine (false, ls) l = (false, ls ++ [l]) := by
  have hs1 : pyStartswith fenceOpen l = false := by
    cases hs : pyStartswith fenceOpen l
    · rfl
    · rw [pyIn_of_startswith hs] at h1
      exact absurd h1 (by simp)
  have hs2 : pyStartswith fenceClose l = false := by
    cases hs : pyStartswith fenceClose l
    · rfl
    · rw [pyIn_of_startswith hs] at h2
      exact absurd h2 (by simp)
  simp only [cleanBodyLine, hs1, hs2, Bool.or_self, Bool.false_eq_true, if_false]
  rw [pyReplace_no_occ _ h1, pyReplace_no_occ _ h2]

theorem cleanBody_fold_plain {lines : List (List Char)}
    (h : ∀ l ∈ lines, pyIn fenceOpen l = false ∧ pyIn fenceClose l = false) :
    ∀ acc, lines.foldl cleanBodyLine (false, acc) = (false, acc ++ lines) := by
  induction lines with
  | nil => intro acc; simp
  | cons l ls ih =>
    intro acc
    rw [List.foldl_cons,
      cleanBodyLine_plain acc (h l (List.mem_cons_self _ _)).1
        (h l (List.mem_cons_self _ _)).2,
      ih (fun l2 hl2 => h l2 (List.mem_cons_of_mem _ hl2)) (acc ++ [l])]
    simp

theorem clean_body_plain_core {s : List Char}
    (h1 : pyIn fenceOpen s = false) (h2 : pyIn fenceClose s = false)
    (hb : ∀ c ∈ s, isLineBreak c = true → c = '\n')
    (hn : s.getLast? ≠ some '\n') :
    clean_body s = pyReplace ['%'] "&#37;".toList s := by
  have hlines1 : ∀ l ∈ splitlinesGo s [], pyIn fenceOpen l = false :=
    splitlinesGo_pyIn hb [] (by simpa using h1)
  have hlines2 : ∀ l ∈ splitlinesGo s [], pyIn fenceClose l = false :=
    splitlinesGo_pyIn hb [] (by simpa using h2)
  have hfold := cleanBody_fold_plain
    (fun l hl => ⟨hlines1 l hl, hlines2 l hl⟩) []
  have hjoin : joinLines (splitlinesGo s []) = s := by
    simpa using joinLines_splitlinesGo hb hn []
  unfold clean_body pySplitlines
  rw [hfold]
  simpa using congrArg (pyReplace ['%'] "&#37;".toList) hjoin

theorem add_comments_foldl (existing : List String) (bb : List BBComment) :
    ∀ d : List String,
      bb.foldl
        (fun d comment =>
          let body := comment_body comment
          if body ∈ existing then d else d ++ [body]) d
      = d ++ (bb.filter
          (fun c => decide (comment_body c ∉ existing))).map comment_body := by
  induction bb with
  | nil => intro d; simp
  | cons c bb ih =>
    intro d
    rw [List.foldl_cons]
    by_cases h : comment_body c ∈ existing
    · simp only [h, if_pos]
      rw [ih d]
      simp [List.filter_cons, h]
    · simp only [h, if_neg, not_false_iff]
      rw [ih (d ++ [comment_body c])]
      simp [List.filter_cons, h]

theorem add_comments_closed (dest : List String) (bb : List BBComment) :
    add_comments_to_issue dest bb
    = dest ++ (bb.filter
        (fun c => decide (comment_body c ∉ dest))).map comment_body :=
  add_comments_foldl dest bb dest

theorem toPushedComment_created_at {c : RawComment} {g : BBComment}
    (h : toPushedComment c = some g) : g.created_at = c.utc_created_on := by
  unfold toPushedComment at h
  by_cases hb : c.content.getD "" ≠ ""
  · rw [if_pos hb] at h
    cases h
    rfl
  · rw [if_neg hb] at h
    cases h

theorem get_comments_foldl (l : List RawComment) :
    ∀ acc : List BBComment,
      l.foldl
        (fun comments c =>
          match toPushedComment c with
          | some g => comments ++ [g]
          | none => comments) acc
      = acc ++ l.filterMap toPushedComment := by
  induction l with
  | nil => intro acc; simp
  | cons c l ih =>
    intro acc
    rw [List.foldl_cons]
    cases h : toPushedComment c with
    | none => rw [ih acc]; simp [List.filterMap_cons, h]
    | some g => rw [ih (acc ++ [g])]; simp [List.filterMap_cons, h]

theorem get_comments_eq (response : List RawComment) :
    get_comments response
    = (List.insertionSort
        (fun a b => strLeB a.utc_created_on b.utc_created_on = true)
        response).filterMap toPushedComment := by
  unfold get_comments
  rw [get_comments_foldl]
  simp

/-! ## Claim theorems -/

/-- Claim C7: `clean_body` applied to `"before\n{{{\ncode line\n}}}\nafter"`
returns `"before\n    \n    code line\n    \nafter"` — each line inside the
fence, and the fence boundary lines' remainders, prefixed with four spaces,
the fence markers themselves removed. -/
theorem clean_body_fenced_example :
    clean_body ("before\n\x7b\x7b\x7b\ncode line\n\x7d\x7d\x7d\nafter".toList)
    = ("before\n    \n    code line\n    \nafter".toList) := by decide

/-- Claim C3: with a cached snapshot at timestamp `T1`, `changed` returns
`T2 > T1` for an incoming timestamp `T2`; but when no cached issue entry
exists it does **not** return true — the `open` inside `load` raises
`IOError`, so the check fails instead (the code bug the claim's
missing-entry half contradicts). -/
theorem changed_missing_entry_raises :
    IssueCache.changed [] issueT1 = .error .ioError
    ∧ IssueCache.changed cacheDirT1 issueT2 = .ok true
    ∧ IssueCache.changed cacheDirT1 issueT1 = .ok false := by decide

/-- Claim C4: assigning a new comment set does **not** delete previously
cached comment files: `delete_comments` filters on the prefix
`"comments-"` while comment files are saved under `"comment-<n>.json"`,
so a stale file (here `comment-1.json`) survives the assignment of a
comment set that no longer contains comment 1. -/
theorem delete_comments_prefix_mismatch :
    IssueCache.commentsSet [("comment-1.json", .commentFile commentOld)] [commentNew]
      = [("comment-1.json", .commentFile commentOld),
         ("comment-2.json", .commentFile commentNew)]
    ∧ IssueCache.delete_comments [("comment-1.json", .commentFile commentOld)]
      = [("comment-1.json", .commentFile commentOld)] := by decide

/-- Claim C5: for an issue whose cache check reports unchanged, the yielded
Migration Unit does reuse the cached comment set, but the issue dict is the
freshly fetched one with no `formatted` key, so the subsequent
`push_issue` raises `KeyError` instead of posting a previously formatted
body — nothing restores `formatted` on the unchanged path. -/
theorem unchanged_issue_no_formatted_body :
    iter_issue_from_bb_step "u" "r" cacheDirUnchanged issueT1 []
      = .ok ({ id := 1, issue := issueT1, comments := [commentOld] },
             cacheDirUnchanged)
    ∧ issueT1.formatted = none
    ∧ push_issue issueT1 false false = .error .keyError := by decide

/-- Claim C10: when the destination repository name contains no `'/'`, only
the slash branch of `prepare_github` would assign the local `gh_repo`, so
the final `get_repo(gh_repo)` call reads an unbound local and fails with a
name error rather than resolving the authenticated user's repository. -/
theorem prepare_github_no_slash (env : GhEnv) (github_repo : String)
    (h : pyIn "/".toList github_repo.toList = false) :
    prepare_github_resolve env github_repo = .error .nameError := by
  have h2 : pyIn ['/'] github_repo.data = false := h
  simp [prepare_github_resolve, h2]

/-- Witness for C10 at the concrete repository name `"myrepo"`. -/
theorem prepare_github_no_slash_witness :
    pyIn "/".toList "myrepo".toList = false
    ∧ prepare_github_resolve envNoLookups "myrepo" = .error .nameError :=
  ⟨by decide, prepare_github_no_slash envNoLookups "myrepo" (by decide)⟩

/-- Claim C9 (amended): `format_user` returns `"Anonymous"` for a falsy
`author_info`, the space-joined names when both are non-empty, a profile
link when a `username` key is present — but for a truthy record with
neither both names nor a username it falls off the end and returns
Python `None`, not `"Anonymous"`. -/
theorem format_user_cases (a : AuthorInfo) :
    (format_user none = some "Anonymous")
    ∧ (a.first_name ≠ "" → a.last_name ≠ "" →
        format_user (some a) = some (a.first_name ++ " " ++ a.last_name))
    ∧ (¬ (a.first_name ≠ "" ∧ a.last_name ≠ "") → ∀ u, a.username = some u →
        format_user (some a)
          = some ("[" ++ u ++ "](http://bitbucket.org/" ++ u ++ ")"))
    ∧ (¬ (a.first_name ≠ "" ∧ a.last_name ≠ "") → a.username = none →
        format_user (some a) = none) := by
  refine ⟨rfl, ?_, ?_, ?_⟩
  · intro h1 h2
    simp [format_user, h1, h2]
  · intro h u hu
    simp [format_user, h, hu]
  · intro h hu
    simp [format_user, h, hu]

/-- Witness for C9: each branch of `format_user_cases` at concrete authors. -/
theorem format_user_cases_witness :
    format_user none = some "Anonymous"
    ∧ format_user (some ⟨"A", "B", some "u"⟩) = some "A B"
    ∧ format_user (some ⟨"", "B", some "u"⟩)
        = some "[u](http://bitbucket.org/u)"
    ∧ format_user (some authorHalfName) = none :=
  ⟨(format_user_cases ⟨"A", "B", some "u"⟩).1,
   (format_user_cases ⟨"A", "B", some "u"⟩).2.1 (by decide) (by decide),
   (format_user_cases ⟨"", "B", some "u"⟩).2.2.1 (by decide) "u" rfl,
   (format_user_cases authorHalfName).2.2.2 (by decide) rfl⟩

/-- Counterexample for C9 as stated: a truthy author record with a first
name only and no `username` key makes `format_user` return Python `None` —
none of the three claimed string forms, in particular not `"Anonymous"`. -/
theorem format_user_not_three_forms :
    format_user (some authorHalfName) = none
    ∧ ∀ s : String, format_user (some authorHalfName) ≠ some s := by
  refine ⟨by decide, ?_⟩
  intro s h
  rw [show format_user (some authorHalfName) = none from by decide] at h
  cases h

/-- Claim C6: in non-dry-run mode, a `"resolved"` issue is created with no
status label and transitioned to the closed state immediately after
creation; an issue with any other status is created with exactly one label
equal to that status string and left open. -/
theorem push_issue_status_mapping (issue : BBIssue) (b : String)
    (h : issue.formatted = some b) :
    (issue.status = "resolved" →
      push_issue issue false false
        = .ok (some (⟨issue.title, b, [], "closed"⟩ : GhIssue)))
    ∧ (issue.status ≠ "resolved" →
      push_issue issue false false
        = .ok (some (⟨issue.title, b, [issue.status], "open"⟩ : GhIssue))) := by
  constructor
  · intro hs
    simp [push_issue, h, hs, github_label, pure, Except.pure, Bind.bind, Except.bind]
  · intro hs
    simp [push_issue, h, hs, github_label, pure, Except.pure, Bind.bind, Except.bind]

/-- Witness for C6: one resolved and one open issue, pushed concretely. -/
theorem push_issue_status_mapping_witness :
    push_issue issueResolved false false
      = .ok (some (⟨"t", "B", [], "closed"⟩ : GhIssue))
    ∧ push_issue issueOpenSt false false
      = .ok (some (⟨"t", "B", ["open"], "open"⟩ : GhIssue)) :=
  ⟨(push_issue_status_mapping issueResolved "B" rfl).1 rfl,
   (push_issue_status_mapping issueOpenSt "B" rfl).2 (by decide)⟩

/-- Claim C1 (amended): pushing the same comment sequence twice is a no-op
the second time (the destination list is unchanged, hence equal counts);
if the destination's existing bodies are duplicate-free and the sequence's
rendered bodies are pairwise distinct, the final comment set has no
duplicate bodies; and a comment whose rendered body already exists is
skipped (its multiplicity on the destination does not grow). -/
theorem add_comments_idempotent (dest : List String) (bb : List BBComment) :
    add_comments_to_issue (add_comments_to_issue dest bb) bb
      = add_comments_to_issue dest bb
    ∧ (dest.Nodup → (bb.map comment_body).Nodup →
        (add_comments_to_issue dest bb).Nodup)
    ∧ (∀ c ∈ bb, comment_body c ∈ dest →
        (add_comments_to_issue dest bb).count (comment_body c)
          = dest.count (comment_body c)) := by
  refine ⟨?_, ?_, ?_⟩
  · have hsub : ∀ c ∈ bb, comment_body c ∈ add_comments_to_issue dest bb := by
      intro c hc
      rw [add_comments_closed]
      by_cases h : comment_body c ∈ dest
      · exact List.mem_append_left _ h
      · refine List.mem_append_right _ ?_
        exact List.mem_map_of_mem _ (List.mem_filter.2 ⟨hc, by simp [h]⟩)
    rw [add_comments_closed (add_comments_to_issue dest bb) bb]
    have hempty :
        bb.filter
          (fun c => decide (comment_body c ∉ add_comments_to_issue dest bb))
        = [] := by
      rw [List.filter_eq_nil_iff]
      intro c hc
      simp [hsub c hc]
    rw [hempty]
    simp
  · intro hd hb
    rw [add_comments_closed]
    refine List.Nodup.append hd ?_ ?_
    · exact hb.sublist ((List.filter_sublist bb).map comment_body)
    · intro a ha hmem
      obtain ⟨c, hcf, he⟩ := List.mem_map.1 hmem
      have h2 := (List.mem_filter.1 hcf).2
      rw [he] at h2
      simp only [decide_eq_true_eq] at h2
      exact h2 ha
  · intro c hc hcd
    rw [add_comments_closed, List.count_append]
    have hzero :
        ((bb.filter
            (fun c2 => decide (comment_body c2 ∉ dest))).map comment_body).count
          (comment_body c) = 0 := by
      rw [List.count_eq_zero]
      intro hmem
      obtain ⟨c2, hcf, he⟩ := List.mem_map.1 hmem
      have h2 := (List.mem_filter.1 hcf).2
      rw [he] at h2
      simp only [decide_eq_true_eq] at h2
      exact h2 hcd
    rw [hzero]
    exact Nat.add_zero _

/-- Witness for C1 at a concrete destination and comment list. -/
theorem add_comments_idempotent_witness :
    (add_comments_to_issue (add_comments_to_issue ["x"] [commentOld]) [commentOld]
      = add_comments_to_issue ["x"] [commentOld])
    ∧ (add_comments_to_issue ["x"] [commentOld]).Nodup
    ∧ (add_comments_to_issue [comment_body commentOld] [commentOld]).count
        (comment_body commentOld)
      = [comment_body commentOld].count (comment_body commentOld) :=
  ⟨(add_comments_idempotent ["x"] [commentOld]).1,
   (add_comments_idempotent ["x"] [commentOld]).2.1 (by decide) (by decide),
   (add_comments_idempotent [comment_body commentOld] [commentOld]).2.2
     commentOld (List.mem_singleton.2 rfl) (List.mem_singleton.2 rfl)⟩

/-- Counterexample for C1 as stated: two distinct Bitbucket comments (same
author, timestamp and text, different comment numbers) render to the same
body; both are posted in the first run, so even after a second run the
destination's comment set has a duplicate body. -/
theorem add_comments_duplicate_bodies :
    ¬ (add_comments_to_issue (add_comments_to_issue [] [commentDupA, commentDupB])
        [commentDupA, commentDupB]).Nodup := by decide

theorem strLeB_total (a b : String) : strLeB a b = true ∨ strLeB b a = true := by
  cases h : strLtB b a
  · left
    simp [strLeB, h]
  · right
    have h2 := charListLt_asymm (a := b.toList) (b := a.toList) h
    simp only [String.toList] at h2
    simp [strLeB, strLtB, String.toList, h2]

theorem strLeB_trans {a b c : String} (h1 : strLeB a b = true)
    (h2 : strLeB b c = true) : strLeB a c = true := by
  rw [strLeB_iff] at h1 h2 ⊢
  unfold strLtB at h1 h2 ⊢
  cases hca : charListLt c.toList a.toList
  · rfl
  · exfalso
    cases hbc : charListLt b.toList c.toList
    · have heq : b.toList = c.toList := charListLt_connex hbc h2
      rw [← heq] at hca
      rw [hca] at h1
      exact absurd h1 (by simp)
    · have h3 := charListLt_trans hbc hca
      rw [h3] at h1
      exact absurd h1 (by simp)

/-- Claim C2 (amended): on the fresh-fetch path, `get_comments` emits
comments in strictly ascending creation-timestamp order whenever the
response's timestamps are distinct, regardless of retrieval order.  (The
cached-reuse getter applies no sorting — see the counterexample — so the
strict-ordering guarantee holds only on this path.) -/
theorem get_comments_sorted (response : List RawComment)
    (h : (response.map RawComment.utc_created_on).Nodup) :
    List.Pairwise
      (fun a b : BBComment => strLtB a.created_at b.created_at = true)
      (get_comments response) := by
  haveI : IsTotal RawComment
      (fun a b => strLeB a.utc_created_on b.utc_created_on = true) :=
    ⟨fun a b => strLeB_total _ _⟩
  haveI : IsTrans RawComment
      (fun a b => strLeB a.utc_created_on b.utc_created_on = true) :=
    ⟨fun _ _ _ h1 h2 => strLeB_trans h1 h2⟩
  have hsorted : List.Pairwise
      (fun a b : RawComment => strLeB a.utc_created_on b.utc_created_on = true)
      (List.insertionSort
        (fun a b => strLeB a.utc_created_on b.utc_created_on = true) response) :=
    List.sorted_insertionSort _ response
  have hperm := List.perm_insertionSort
    (fun a b : RawComment => strLeB a.utc_created_on b.utc_created_on = true)
    response
  have hnd : ((List.insertionSort
      (fun a b => strLeB a.utc_created_on b.utc_created_on = true)
      response).map RawComment.utc_created_on).Nodup :=
    ((hperm.map RawComment.utc_created_on).nodup_iff).2 h
  have hne := (List.pairwise_map.1 hnd)
  have hstrict := (hsorted.and hne).imp
    (fun hab => strLtB_of_strLeB_of_ne hab.1 (fun he => hab.2 (by rw [he])))
  rw [get_comments_eq]
  refine List.Pairwise.filterMap toPushedComment ?_ hstrict
  intro a b hab ga hga gb hgb
  rw [toPushedComment_created_at (Option.mem_def.1 hga),
    toPushedComment_created_at (Option.mem_def.1 hgb)]
  exact hab

/-- Witness for C2 at a two-element response arriving latest-first. -/
theorem get_comments_sorted_witness :
    ([rawLater, rawEarlier].map RawComment.utc_created_on).Nodup
    ∧ List.Pairwise
        (fun a b : BBComment => strLtB a.created_at b.created_at = true)
        (get_comments [rawLater, rawEarlier]) :=
  ⟨by decide, get_comments_sorted [rawLater, rawEarlier] (by decide)⟩

/-- Counterexample for C2 as stated: on the cached-reuse path the `comments`
getter returns the cached files in listing order without sorting, so a
comment set written to the cache in non-chronological order is emitted in
that same non-chronological order. -/
theorem cached_comments_unsorted :
    IssueCache.comments (IssueCache.commentsSet [] [commentLate, commentEarly])
      = [commentLate, commentEarly]
    ∧ ¬ List.Pairwise
        (fun a b : BBComment => strLtB a.created_at b.created_at = true)
        [commentLate, commentEarly] := by decide

/-- Claim C8 (amended): a body containing no fence markers, no carriage
return (nor other non-`'\n'` line breaks) and not ending in a newline
passes through `clean_body` unchanged except for `%` → `&#37;` escaping;
with no `%` either, `clean_body` is the identity.  (A trailing newline is
dropped by `splitlines` — see the counterexample — so bodies ending in a
line break are excluded.) -/
theorem clean_body_plain_text {s : List Char}
    (h1 : pyIn fenceOpen s = false) (h2 : pyIn fenceClose s = false)
    (hb : ∀ c ∈ s, isLineBreak c = true → c = '\n')
    (hn : s.getLast? ≠ some '\n') :
    clean_body s = pyReplace ['%'] "&#37;".toList s
    ∧ (pyIn ['%'] s = false → clean_body s = s) := by
  have hmain := clean_body_plain_core h1 h2 hb hn
  exact ⟨hmain, fun hp => hmain.trans (pyReplace_no_occ _ hp)⟩

/-- Witness for C8 at two concrete bodies: one with a `%`, one without. -/
theorem clean_body_plain_text_witness :
    (pyIn fenceOpen "a % b".toList = false
      ∧ clean_body "a % b".toList
          = pyReplace ['%'] "&#37;".toList "a % b".toList
      ∧ clean_body "a % b".toList = "a &#37; b".toList)
    ∧ ((∀ c ∈ "hello".toList, isLineBreak c = true → c = '\n')
      ∧ clean_body "hello".toList = "hello".toList) :=
  ⟨⟨by decide,
    (clean_body_plain_text (by decide) (by decide) (by decide) (by decide)).1,
    (clean_body_plain_text (s := "a % b".toList)
        (by decide) (by decide) (by decide) (by decide)).1.trans (by decide)⟩,
   ⟨by decide,
    (clean_body_plain_text (s := "hello".toList)
        (by decide) (by decide) (by decide) (by decide)).2 (by decide)⟩⟩

/-- Counterexample for C8 as stated: `"x\n"` contains no fence marker and no
`%`, yet `clean_body` drops the trailing newline (`splitlines` produces no
trailing empty line), returning `"x"` instead of the body unchanged. -/
theorem clean_body_trailing_newline :
    pyIn fenceOpen "x\n".toList = false
    ∧ pyIn fenceClose "x\n".toList = false
    ∧ pyIn ['%'] "x\n".toList = false
    ∧ clean_body "x\n".toList ≠ "x\n".toList
    ∧ clean_body "x\n".toList = "x".toList := by decide
